import Mathlib

/-!
Verification development for the `storage` repository: a small promise-based
filesystem abstraction consisting of two classes, `File` (src/File.mjs, here
`src/unnamed/part_000`) and `Dir` (src/Dir.mjs), plus a trivial singleton
holder (`src/unnamed/part_001`, no logic).

Shallow embedding conventions:
* The filesystem is a finite association list from path strings to nodes
  (`FS.entries`), together with a `statDenied` set of paths on which the
  `stat` syscall fails even though the entry exists (modelling EACCES-style
  stat errors; needed because `Dir.check` swallows stat errors).
* OS primitives (`osAccess`, `osStat`, `osMkdir`, `osReaddir`, `osReadFile`,
  `osWriteFile`, `osRename`, `osRm`) are modelled with their documented
  success/failure conditions: `mkdir` fails when the target exists or its
  parent directory is missing, `writeFile` fails when the parent is missing
  or the target is a directory, `rm` (recursive, no force flag) fails when
  the target is missing, `rename` fails when the source is missing or the
  destination parent is missing.  `Option`/`Bool` results model JS
  exceptions caught by the repository code.
* Paths are plain strings joined with `"/"`, exactly as the source does
  (`` `${dirPath}/${item}` ``).
* `async` methods are sequential in the source (every call is awaited), so
  they embed as pure state-passing functions.
* Unbounded recursion/loops (`Dir.copy`, `Dir.lastName`) take a fuel
  argument; `none` models a call that has not completed.
-/

/-- A filesystem node: a regular file with text content, or a directory. -/
inductive Node
  | file (content : String)
  | dir
deriving DecidableEq

/-- Returns true iff the node is a directory (embeds `stats.isDirectory()`). -/
def Node.isDir : Node → Bool
  | Node.file _ => false
  | Node.dir => true

/-- Filesystem state: finite path-to-node map plus the set of paths whose
`stat` syscall is denied (e.g. EACCES) even though the entry exists. -/
structure FS where
  entries : List (String × Node)
  statDenied : List String
deriving DecidableEq

/-- Look a path up in the filesystem. -/
def FS.lookup (fs : FS) (p : String) : Option Node :=
  List.lookup p fs.entries

/-- Insert (or overwrite) a path binding. -/
def FS.insert (fs : FS) (p : String) (n : Node) : FS :=
  ⟨(p, n) :: fs.entries.eraseP (fun e => e.1 == p), fs.statDenied⟩

/-- The parent path of `p`: the part before the last `/`, or `none` when `p`
has no separator (its parent is the always-existing working directory). -/
def parentPath (p : String) : Option String :=
  if p.data.contains '/' then
    some ⟨((p.data.reverse.dropWhile (fun c => c != '/')).tail).reverse⟩
  else
    none

/-- A path can be created here: its parent directory exists (top-level names
always can). -/
def FS.parentOk (fs : FS) (p : String) : Bool :=
  match parentPath p with
  | none => true
  | some q =>
    match fs.lookup q with
    | some Node.dir => true
    | _ => false

/-- The name of a direct child of directory `dirPath` held at full path `q`,
if `q` is such a child (`q = dirPath ++ "/" ++ item` with `item` free of
separators). -/
def childNameOf (dirPath q : String) : Option String :=
  let pre := dirPath.data ++ ['/']
  if pre.isPrefixOf q.data then
    let item := q.data.drop pre.length
    if item.isEmpty || item.contains '/' then none else some ⟨item⟩
  else
    none

/-- Syscall `access`: succeeds iff the path is present. -/
def osAccess (fs : FS) (p : String) : Bool :=
  (fs.lookup p).isSome

/-- Syscall `stat`: fails (`none`) when the path is absent or stat is denied
on it, otherwise returns the node. -/
def osStat (fs : FS) (p : String) : Option Node :=
  if fs.statDenied.contains p then none else fs.lookup p

/-- Syscall `mkdir` (non-recursive): fails when the target already exists or
its parent directory is missing. -/
def osMkdir (fs : FS) (p : String) : Option FS :=
  if (fs.lookup p).isSome || !(fs.parentOk p) then none
  else some (fs.insert p Node.dir)

/-- Syscall `readdir`: fails unless the path is an existing directory;
otherwise returns the names of its direct children, in entry order. -/
def osReaddir (fs : FS) (p : String) : Option (List String) :=
  match fs.lookup p with
  | some Node.dir => some (fs.entries.filterMap (fun e => childNameOf p e.1))
  | _ => none

/-- Syscall `readFile`: fails unless the path is a regular file. -/
def osReadFile (fs : FS) (p : String) : Option String :=
  match fs.lookup p with
  | some (Node.file c) => some c
  | _ => none

/-- Syscall `writeFile`: fails when the target is an existing directory or
the parent directory is missing; otherwise creates/overwrites the file. -/
def osWriteFile (fs : FS) (p : String) (content : String) : Option FS :=
  match fs.lookup p with
  | some Node.dir => none
  | _ =>
    if fs.parentOk p then some (fs.insert p (Node.file content)) else none

/-- Rebase a single stored path under a rename of `old` to `new`. -/
def renamePath (old new q : String) : String :=
  if q == old then new
  else if (old.data ++ ['/']).isPrefixOf q.data then
    new ++ ⟨q.data.drop old.data.length⟩
  else q

/-- Syscall `rename`: fails when the source is missing or the destination
parent is missing; otherwise moves the source subtree. -/
def osRename (fs : FS) (old new : String) : Option FS :=
  if (fs.lookup old).isSome && fs.parentOk new then
    some ⟨fs.entries.map (fun e => (renamePath old new e.1, e.2)), fs.statDenied⟩
  else none

/-- Syscall `rm` with `recursive: true` (and no `force` flag): fails when the
path is missing; otherwise removes the path and everything below it. -/
def osRm (fs : FS) (p : String) : Option FS :=
  if (fs.lookup p).isSome then
    some ⟨fs.entries.filter
      (fun e => !(e.1 == p || (p.data ++ ['/']).isPrefixOf e.1.data)),
      fs.statDenied⟩
  else none

/-- Characters after the last `/` (embeds Node's `path.basename`). -/
def basenameChars (l : List Char) : List Char :=
  (l.reverse.takeWhile (fun c => c != '/')).reverse

/-- Extension characters of a path (embeds Node's `path.extname`): from the
last `.` of the basename, empty when there is no `.` or the only `.` is the
basename's first character (dotfiles). -/
def extnameChars (l : List Char) : List Char :=
  let b := basenameChars l
  let revTail := b.reverse.takeWhile (fun c => c != '.')
  if revTail.length = b.length then []
  else if revTail.length + 1 = b.length then []
  else '.' :: revTail.reverse

/-- String form of `extnameChars`. -/
def extname (p : String) : String := ⟨extnameChars p.data⟩

/-- String form of `basenameChars`. -/
def basename (p : String) : String := ⟨basenameChars p.data⟩

/-- Basename without its extension (embeds `path.parse(p).name`, and equally
`path.basename(p, ext)` when `ext` is the path's extension). -/
def parseNameOf (p : String) : String :=
  let b := basenameChars p.data
  ⟨b.take (b.length - (extnameChars p.data).length)⟩

/-- The regex metacharacters of JavaScript pattern syntax (quantifier braces
excepted, which are literal outside a quantifier). -/
def regexSpecials : List Char :=
  ['\\', '^', '$', '.', '*', '+', '?', '(', ')', '[', ']', '|']

/-- The string contains no regex metacharacter, so `new RegExp(s)` denotes
`s` taken literally. -/
def noRegexMeta (s : String) : Bool :=
  s.data.all (fun c => !(regexSpecials.contains c))

/-- Line terminators of ECMAScript (LF, CR, LS, PS), which the regex
wildcard `.` does not match. -/
def isLineTerminator (c : Char) : Bool :=
  c == '\n' || c == '\r' || c == Char.ofNat 8232 || c == Char.ofNat 8233

/-- Match of a dot-wildcard pattern against a prefix of the text: each
pattern character must equal the text character, except `.` which matches
any character other than a line terminator.  This is the JavaScript regex
semantics for patterns whose only metacharacter is `.` (the only kind this
development instantiates). -/
def matchesDotAt : List Char → List Char → Bool
  | [], _ => true
  | _ :: _, [] => false
  | p :: ps, c :: cs =>
    ((p == '.' && !(isLineTerminator c)) || p == c) && matchesDotAt ps cs

/-- ECMAScript GetSubstitution for a string replacement under a pattern with
no capture groups: in the replacement text, a dollar followed by a dollar
yields one dollar, a dollar followed by an ampersand yields the matched
text, a dollar followed by a backquote (code 96) yields the part of the
original text before the match, a dollar followed by a quote (code 39)
yields the part after the match, and any other dollar sequence — digits
included, since the pattern has no groups — is literal. -/
def expandRepl (matched before after : List Char) : List Char → List Char
  | [] => []
  | [c] => [c]
  | c :: d :: rest =>
    if c == '$' then
      if d == '$' then '$' :: expandRepl matched before after rest
      else if d == '&' then matched ++ expandRepl matched before after rest
      else if d == Char.ofNat 96 then before ++ expandRepl matched before after rest
      else if d == Char.ofNat 39 then after ++ expandRepl matched before after rest
      else c :: expandRepl matched before after (d :: rest)
    else c :: expandRepl matched before after (d :: rest)

/-- Fueled scanner for `String.prototype.replace(new RegExp(pat, g), repl)`
restricted to dot-only patterns: scan left to right, replacing each
leftmost match — with the replacement string run through `expandRepl`, as
JS does for string replacements — and resuming after it; `seen` carries
the already-scanned prefix of the original text for the dollar-backquote
substitution.  Fuel at least the text length makes the scan complete (each
step consumes at least one character). -/
def jsRepAux (pat repl : List Char) : Nat → List Char → List Char → List Char
  | _, _, [] => []
  | 0, _, s => s
  | fuel + 1, seen, c :: cs =>
    if matchesDotAt pat (c :: cs) then
      expandRepl (List.take pat.length (c :: cs)) seen
          (List.drop pat.length (c :: cs)) repl
        ++ jsRepAux pat repl fuel (seen ++ List.take pat.length (c :: cs))
          (List.drop pat.length (c :: cs))
    else
      c :: jsRepAux pat repl fuel (seen ++ [c]) cs

/-- Embeds `s.replace(new RegExp(pat, g), repl)` for nonempty dot-only
patterns `pat`, dollar substitution in `repl` included. -/
def jsReplaceAll (pat repl s : String) : String :=
  ⟨jsRepAux pat.data repl.data s.data.length [] s.data⟩

/-- Fueled scanner for a global LITERAL substring replacement: identical to
`jsRepAux` except that the pattern is matched verbatim.  This is the
operation the specification's words describe (`string-replacing ... a
literal substring replacement`); it is compared against the source's
regex-based `jsRepAux`. -/
def litRepAux (pat repl : List Char) : Nat → List Char → List Char
  | _, [] => []
  | 0, s => s
  | fuel + 1, c :: cs =>
    if List.isPrefixOf pat (c :: cs) then
      repl ++ litRepAux pat repl fuel (List.drop pat.length (c :: cs))
    else
      c :: litRepAux pat repl fuel cs

/-- Global literal substring replacement (the specification's reading). -/
def litReplaceAll (pat repl s : String) : String :=
  ⟨litRepAux pat.data repl.data s.data.length s.data⟩

/-- The literal pattern occurs somewhere in the text. -/
def occursIn (pat : List Char) : List Char → Bool
  | [] => pat.isEmpty
  | c :: cs => List.isPrefixOf pat (c :: cs) || occursIn pat cs

/-- Destination path computed by `Dir.copy` for an enumerated entry
(src/Dir.mjs line 162):
`before.replace(new RegExp(ofPath, g), toPath)`. -/
def copyDest (ofPath toPath before : String) : String :=
  jsReplaceAll ofPath toPath before


/-- Result of `File.read` (src/File.mjs).  On success `read` is true and the
string fields are populated; on failure `read` is false, the other fields
are absent, and the JS error object held in `content` is modelled as
`none`. -/
structure ReadResult where
  read : Bool
  name : Option String := none
  content : Option String := none
  extension : Option String := none
  nameWithExtension : Option String := none
deriving DecidableEq

/-- Embeds `File.read` (src/File.mjs lines 14-32): `readFile` plus filename
components parsed from the path string; any exception yields
`read: false`. -/
def File.read (fs : FS) (filePath : String) : ReadResult :=
  match osReadFile fs filePath with
  | some content =>
    let ext := extname filePath
    let fileName := parseNameOf filePath
    { read := true
      name := some fileName
      content := some content
      extension := some ext
      nameWithExtension := some (fileName ++ ext) }
  | none => { read := false }

/-- Embeds `File.create` (src/File.mjs lines 39-51): `writeFile` wrapped in
try/catch; the boolean is the `create` flag of the result object (the
`error` payload carries no information the claims consult and is dropped). -/
def File.create (fs : FS) (filePath content : String) : FS × Bool :=
  match osWriteFile fs filePath content with
  | some fs1 => (fs1, true)
  | none => (fs, false)

/-- Embeds `Dir.exists` (src/Dir.mjs lines 14-21): `access` wrapped in
try/catch.  (The source name `exists` is reserved in Lean.) -/
def Dir.existsb (fs : FS) (dirName : String) : Bool :=
  osAccess fs dirName

/-- Embeds `Dir.create` (src/Dir.mjs lines 28-35): `mkdir` wrapped in
try/catch, returning the new state and the success flag. -/
def Dir.create (fs : FS) (dirName : String) : FS × Bool :=
  match osMkdir fs dirName with
  | some fs1 => (fs1, true)
  | none => (fs, false)

/-- Embeds `Dir.rename` (src/Dir.mjs lines 43-50): OS `rename` wrapped in
try/catch — note that a failure is swallowed into `false`, never
re-thrown. -/
def Dir.rename (fs : FS) (oldDir newDir : String) : FS × Bool :=
  match osRename fs oldDir newDir with
  | some fs1 => (fs1, true)
  | none => (fs, false)

/-- Embeds `Dir.delete` (src/Dir.mjs lines 57-64): recursive `rm` wrapped in
try/catch. -/
def Dir.delete (fs : FS) (folderPath : String) : FS × Bool :=
  match osRm fs folderPath with
  | some fs1 => (fs1, true)
  | none => (fs, false)

/-- Embeds `Dir.check` (src/Dir.mjs lines 71-78): `stat(path).isDirectory()`
with any stat error swallowed into `false`. -/
def Dir.check (fs : FS) (p : String) : Bool :=
  match osStat fs p with
  | some st => st.isDir
  | none => false

/-- An item of a `Dir.list` result (src/Dir.mjs lines 92-124).  `extension`
and `nameWithExtension` are present exactly when the item was classified as
a file.  The `sub` field only arises under `listSubPath = true`, a mode no
call in the repository uses (`Dir.copy` calls `list` with the default
`false`), so it is not modelled. -/
structure DirEntry where
  path : String
  file : Bool
  name : String
  extension : Option String
  nameWithExtension : Option String
deriving DecidableEq

/-- The info object `Dir.list` builds for one enumerated name (src/Dir.mjs
lines 97-118, `listSubPath = false`). -/
def Dir.listItem (fs : FS) (dirPath item : String) : DirEntry :=
  let filePath := dirPath ++ "/" ++ item
  let isDir := Dir.check fs filePath
  { path := filePath
    file := !isDir
    name := parseNameOf filePath
    extension := if !isDir then some (extname filePath) else none
    nameWithExtension := if !isDir then some (basename filePath) else none }

/-- Embeds `Dir.list` (src/Dir.mjs lines 92-124) in the `listSubPath =
false` form used everywhere in the repository: `readdir`, one info object
per name in order, and any enumeration error swallowed into `[]`. -/
def Dir.list (fs : FS) (dirPath : String) : List DirEntry :=
  match osReaddir fs dirPath with
  | none => []
  | some items => items.map (Dir.listItem fs dirPath)

/-- Candidate name tried by `Dir.lastName` at loop counter `count`
(src/Dir.mjs lines 131-133). -/
def candName (baseName ext : String) (count : Nat) : String :=
  if count > 1 then baseName ++ "-copy-" ++ toString count ++ ext
  else baseName ++ "-copy" ++ ext

/-- The distinct candidate names `Dir.lastName` can return, in the order it
reaches them: `-copy`, then `-copy-2`, `-copy-3`, ...  (the loop counter 1
re-tests the `-copy` name, so no `-copy-1` ever appears). -/
def seqCand (baseName ext : String) : Nat → String
  | 0 => baseName ++ "-copy" ++ ext
  | k + 1 => baseName ++ "-copy-" ++ toString (k + 2) ++ ext

/-- Embeds the `Dir.lastName` loop (src/Dir.mjs lines 126-142) over an
abstract existence test `ex` (the loop touches the filesystem only through
`this.exists`; `Dir.copy` instantiates `ex` with `Dir.existsb fs`).
`none` models a call that has not returned after `fuel` iterations. -/
def Dir.lastNameFuel (ex : String → Bool) (baseName ext : String) :
    Nat → Nat → Option String
  | 0, _ => none
  | fuel + 1, count =>
    let findName := candName baseName ext count
    if ex findName then Dir.lastNameFuel ex baseName ext fuel (count + 1)
    else some findName

/-- Embeds `File.copy` (src/File.mjs lines 102-115): read the source; when
the read succeeded, write the content to the destination — IGNORING the
write's result object — and return `true`; when the read failed, fall off
the end of the function, i.e. return JS `undefined`, modelled as `none`.
(The catch branch is dead: `File.read` and `File.create` never throw.) -/
def File.copy (fs : FS) (oldFilePath newFilePath : String) : FS × Option Bool :=
  let file := File.read fs oldFilePath
  if file.read then
    ((File.create fs newFilePath (file.content.getD "")).1, some true)
  else
    (fs, none)

/-- Embeds `File.rename` (src/File.mjs lines 88-100): throw (caught into
`renamed: false`) when `Dir.check` says the source is a directory;
otherwise call `Dir.rename` — whose boolean result is DISCARDED and which
never throws — and return `renamed: true`. -/
def File.rename (fs : FS) (oldFile newFile : String) : FS × Bool :=
  if Dir.check fs oldFile then (fs, false)
  else ((Dir.rename fs oldFile newFile).1, true)

/-- State after the conditional destination creation in `Dir.copy`
(src/Dir.mjs lines 152-154): create `toPath` when it does not exist. -/
def copyPrep (fs : FS) (toPath : String) : FS :=
  if !(Dir.existsb fs toPath) then (Dir.create fs toPath).1 else fs

/-- The `for (let item of copies)` loop of `Dir.copy` (src/Dir.mjs lines
159-169), with the recursive self-call abstracted as `copyRec`: each
entry's destination is `copyDest`; directories recurse (result ignored),
files go through `File.copy` (result ignored).  `none` propagates a
recursion that has not completed. -/
def copyGo (copyRec : FS → String → String → Option (FS × Bool))
    (ofPath toPath : String) : FS → List DirEntry → Option FS
  | fs, [] => some fs
  | fs, item :: rest =>
    let before := item.path
    let after := copyDest ofPath toPath before
    if item.file then
      copyGo copyRec ofPath toPath (File.copy fs before after).1 rest
    else
      match copyRec fs before after with
      | none => none
      | some (fs1, _) => copyGo copyRec ofPath toPath fs1 rest

/-- One unfolding of `Dir.copy` (src/Dir.mjs lines 144-171): default the
destination through `lastName` when it is falsy (modelled as the empty
string), create it when absent, enumerate the source with `Dir.list`, run
the loop, and return `true`. -/
def copyStep (copyRec : FS → String → String → Option (FS × Bool))
    (lastNameF : FS → String → Option String)
    (fs : FS) (ofPath toPath₀ : String) : Option (FS × Bool) :=
  match (if toPath₀ == "" then lastNameF fs ofPath else some toPath₀) with
  | none => none
  | some toPath =>
    match copyGo copyRec ofPath toPath (copyPrep fs toPath)
        (Dir.list (copyPrep fs toPath) ofPath) with
    | none => none
    | some fs2 => some (fs2, true)

/-- Embeds `Dir.copy` (src/Dir.mjs lines 144-171) with fuel bounding the
recursion depth; `none` models a call that has not completed. -/
def Dir.copyFuel : Nat → FS → String → String → Option (FS × Bool)
  | 0, _, _, _ => none
  | fuel + 1, fs, ofPath, toPath =>
    copyStep (Dir.copyFuel fuel)
      (fun s p => Dir.lastNameFuel (Dir.existsb s) p "" (fuel + 1) 0)
      fs ofPath toPath

/-- Embeds `Dir.move` (src/Dir.mjs lines 173-176): `copy` then
`delete(ofPath)`, unconditionally; the method itself returns nothing, so
the embedding returns the final state (`none` when `copy` has not
completed). -/
def Dir.moveFuel (fuel : Nat) (fs : FS) (ofPath toPath : String) : Option FS :=
  match Dir.copyFuel fuel fs ofPath toPath with
  | none => none
  | some (fs1, _) => some (Dir.delete fs1 ofPath).1

theorem lookup_filter_rm (p : String) (l : List (String × Node)) :
    List.lookup p (l.filter
      (fun e => !(e.1 == p || (p.data ++ ['/']).isPrefixOf e.1.data))) = none := by
  induction l with
  | nil => rfl
  | cons head tail ih =>
    obtain ⟨k, v⟩ := head
    rw [List.filter_cons]
    cases hf : (!((k, v).1 == p || (p.data ++ ['/']).isPrefixOf (k, v).1.data)) with
    | false =>
      simp only [hf, Bool.false_eq_true, if_false]
      exact ih
    | true =>
      have hbk : (k == p) = false := by
        cases hkb : (k == p) with
        | false => rfl
        | true => rw [hkb] at hf; simp at hf
      have hpk : (p == k) = false := by
        refine beq_eq_false_iff_ne.mpr (Ne.symm ?_)
        exact beq_eq_false_iff_ne.mp hbk
      simp only [hf, if_true]
      rw [List.lookup_cons, hpk]
      exact ih

theorem FS_lookup_delete_self (fs : FS) (p : String) :
    ((Dir.delete fs p).1).lookup p = none := by
  unfold Dir.delete
  cases hrm : osRm fs p with
  | some fs2 =>
    unfold osRm at hrm
    split at hrm
    · rw [Option.some_inj] at hrm
      subst hrm
      exact lookup_filter_rm p fs.entries
    · exact absurd hrm (by simp)
  | none =>
    unfold osRm at hrm
    split at hrm
    · exact absurd hrm (by simp)
    · rename_i hns
      cases h : FS.lookup fs p with
      | none => rfl
      | some v => rw [h] at hns; simp at hns

/-- Claim C3: `Dir.move(sourcePath, destPath)` performs `copy` then
`delete(sourcePath)` unconditionally, so after any completed `move` the
source path no longer exists — even when the copy silently failed on some
entries, the source is deleted regardless of the copy outcome. -/
theorem dir_move_source_gone (fuel : Nat) (fs : FS) (ofPath toPath : String)
    (fs1 : FS) (h : Dir.moveFuel fuel fs ofPath toPath = some fs1) :
    Dir.existsb fs1 ofPath = false := by
  unfold Dir.moveFuel at h
  split at h
  · exact absurd h (by simp)
  · rename_i pr hpr
    rw [Option.some_inj] at h
    subst h
    unfold Dir.existsb osAccess
    rw [FS_lookup_delete_self]
    rfl

/-- Witness for C3: moving `src` (a directory holding `src/f.txt`) to a
destination whose parent is missing makes every individual write fail, yet
the completed move still deletes the source: data loss. -/
theorem dir_move_source_gone_witness :
    Dir.existsb ⟨[], []⟩ "src" = false :=
  dir_move_source_gone 2
    ⟨[("src", Node.dir), ("src/f.txt", Node.file "data")], []⟩
    "src" "nope/dst" ⟨[], []⟩ (by decide)

/-- Counterexample to claim C4 as stated: `File.copy` does NOT return `false`
on a read failure — it falls off the end of the function and returns
JS `undefined` (`none`); and on a write failure (destination parent
missing) it still returns `true`, because the write's result object is
ignored. -/
theorem file_copy_claim_counterexample :
    (File.copy ⟨[], []⟩ "missing.txt" "out.txt").2 = none ∧
    ¬(File.copy ⟨[], []⟩ "missing.txt" "out.txt").2 = some false ∧
    (File.copy ⟨[("f.txt", Node.file "hello")], []⟩ "f.txt" "nope/out.txt").2
      = some true ∧
    osWriteFile ⟨[("f.txt", Node.file "hello")], []⟩ "nope/out.txt" "hello"
      = none := by
  decide

/-- Claim C4 (amended): `File.copy(oldPath, newPath)` returns `true` exactly
when reading `oldPath` succeeds — even if the write to `newPath` failed,
whose outcome is ignored — and returns `undefined` (modelled `none`), not
`false`, exactly when the read fails. -/
theorem file_copy_true_iff_read (fs : FS) (oldPath newPath : String) :
    ((File.copy fs oldPath newPath).2 = some true
      ↔ (File.read fs oldPath).read = true) ∧
    ((File.copy fs oldPath newPath).2 = none
      ↔ (File.read fs oldPath).read = false) := by
  unfold File.copy
  cases hr : (File.read fs oldPath).read <;> simp [hr]

/-- Claim C5 is right and the code is wrong: on a regular file whose OS
rename fails (destination parent missing), `File.rename` still reports
`renamed: true` — `Dir.rename` swallowed the failure into a `false` that
`File.rename` discards — contradicting the method's own documentation that
`renamed` indicates whether the rename succeeded.  Nothing was moved. -/
theorem file_rename_reports_success_on_failed_rename :
    (File.rename ⟨[("f.txt", Node.file "hello")], []⟩ "f.txt" "nope/g.txt").2
      = true ∧
    osRename ⟨[("f.txt", Node.file "hello")], []⟩ "f.txt" "nope/g.txt"
      = none ∧
    (File.rename ⟨[("f.txt", Node.file "hello")], []⟩ "f.txt" "nope/g.txt").1
      = ⟨[("f.txt", Node.file "hello")], []⟩ := by
  decide

/-- Claim C6: whenever a `Dir.copy` call completes (the fueled embedding
returns a value), the returned value is `true`, regardless of how many
individual file copies or subdirectory copies inside it failed: partial
failures are never aggregated into the return value. -/
theorem dir_copy_completed_returns_true (fuel : Nat) (fs : FS)
    (ofPath toPath : String) (pr : FS × Bool)
    (h : Dir.copyFuel fuel fs ofPath toPath = some pr) : pr.2 = true := by
  cases fuel with
  | zero => simp [Dir.copyFuel] at h
  | succ n =>
    rw [Dir.copyFuel] at h
    unfold copyStep at h
    split at h
    · exact absurd h (by simp)
    · split at h
      · exact absurd h (by simp)
      · rw [Option.some_inj] at h
        rw [← h]

/-- Witness for C6: a copy whose source listing fails and whose destination
gets created still completes with `true`. -/
theorem dir_copy_completed_returns_true_witness :
    ((⟨[("d", Node.dir)], []⟩ : FS), true).2 = true :=
  dir_copy_completed_returns_true 1 ⟨[], []⟩ "s" "d"
    (⟨[("d", Node.dir)], []⟩, true) (by decide)

/-- Claim C7: `Dir.list` swallows every enumeration error into `[]`, so an
error result is indistinguishable from listing a genuinely empty
directory (which also yields `[]`). -/
theorem dir_list_swallows_errors (fs : FS) (dirPath : String) :
    (osReaddir fs dirPath = none → Dir.list fs dirPath = []) ∧
    (osReaddir fs dirPath = some [] → Dir.list fs dirPath = []) := by
  constructor <;> intro h <;> simp [Dir.list, h]

/-- Witness for C7: listing a missing directory (enumeration error) and
listing an existing empty directory both return `[]`. -/
theorem dir_list_swallows_errors_witness :
    Dir.list ⟨[("e", Node.dir)], []⟩ "missing" = [] ∧
    Dir.list ⟨[("e", Node.dir)], []⟩ "e" = [] :=
  ⟨(dir_list_swallows_errors ⟨[("e", Node.dir)], []⟩ "missing").1 (by decide),
   (dir_list_swallows_errors ⟨[("e", Node.dir)], []⟩ "e").2 (by decide)⟩

/-- Claim C9: a child entry of a `Dir.list` result whose directory-ness stat
failed (e.g. an inaccessible child) is classified as a file: its `file`
field is true and its `extension` and `nameWithExtension` fields are
populated, because `Dir.check` returns `false` both for regular files and
for any stat error. -/
theorem dir_list_statfail_is_file (fs : FS) (dirPath : String)
    (e : DirEntry) (he : e ∈ Dir.list fs dirPath)
    (hstat : osStat fs e.path = none) :
    e.file = true ∧ e.extension.isSome = true
      ∧ e.nameWithExtension.isSome = true := by
  unfold Dir.list at he
  split at he
  · simp at he
  · rename_i items hitems
    rw [List.mem_map] at he
    obtain ⟨item, hmem, rfl⟩ := he
    have hchk : Dir.check fs (dirPath ++ "/" ++ item) = false := by
      unfold Dir.check
      have hp : (Dir.listItem fs dirPath item).path = dirPath ++ "/" ++ item := rfl
      rw [hp] at hstat
      rw [hstat]
    simp [Dir.listItem, hchk]

/-- Witness for C9: `d/x.txt` exists but its stat is denied; the listing of
`d` classifies it as a file with populated extension fields. -/
theorem dir_list_statfail_is_file_witness :
    (⟨"d/x.txt", true, "x", some ".txt", some "x.txt"⟩ : DirEntry).file = true ∧
    (⟨"d/x.txt", true, "x", some ".txt", some "x.txt"⟩ : DirEntry).extension.isSome = true ∧
    (⟨"d/x.txt", true, "x", some ".txt", some "x.txt"⟩ : DirEntry).nameWithExtension.isSome = true :=
  dir_list_statfail_is_file
    ⟨[("d", Node.dir), ("d/x.txt", Node.file "c")], ["d/x.txt"]⟩ "d"
    ⟨"d/x.txt", true, "x", some ".txt", some "x.txt"⟩ (by decide) (by decide)

/-- Counterexample to claim C10 as stated: with a missing source and a
not-yet-existing destination whose PARENT is also missing, `Dir.copy`
still returns `true` but does not create the destination (the silent
`mkdir` failure is swallowed), so `copy` does not always create destPath. -/
theorem dir_copy_no_source_counterexample :
    Dir.copyFuel 1 ⟨[], []⟩ "s" "nope/x" = some (⟨[], []⟩, true) ∧
    Dir.existsb ⟨[], []⟩ "nope/x" = false := by
  decide

theorem candName_add_two (b e : String) (c : Nat) :
    candName b e (c + 2) = seqCand b e (c + 1) := by
  have h : c + 2 > 1 := by omega
  simp [candName, seqCand, h]

theorem lastName_loopFrom (ex : String → Bool) (b e : String) :
    ∀ d count, (∀ j, j < d → ex (candName b e (count + j)) = true) →
      ex (candName b e (count + d)) = false →
      Dir.lastNameFuel ex b e (d + 1) count = some (candName b e (count + d)) := by
  intro d
  induction d with
  | zero =>
    intro count _ hfalse
    simp only [Nat.add_zero] at hfalse
    simp [Dir.lastNameFuel, hfalse]
  | succ d ih =>
    intro count hall hfalse
    have h0 : ex (candName b e count) = true := by
      have := hall 0 (by omega)
      simpa using this
    rw [Dir.lastNameFuel]
    simp only [h0, if_true]
    have hall2 : ∀ j, j < d → ex (candName b e ((count + 1) + j)) = true := by
      intro j hj
      have harg : count + 1 + j = count + (j + 1) := by omega
      rw [harg]
      exact hall (j + 1) (by omega)
    have hfalse2 : ex (candName b e ((count + 1) + d)) = false := by
      have harg : count + 1 + d = count + (d + 1) := by omega
      rw [harg]
      exact hfalse
    have := ih (count + 1) hall2 hfalse2
    rw [this]
    have harg : count + 1 + d = count + (d + 1) := by omega
    rw [harg]

theorem lastName_finds (ex : String → Bool) (b e : String) :
    ∀ k, (∀ j, j < k → ex (seqCand b e j) = true) →
      ex (seqCand b e k) = false →
      Dir.lastNameFuel ex b e (k + 2) 0 = some (seqCand b e k) := by
  intro k hall hfalse
  cases k with
  | zero =>
    have h0 : ex (candName b e 0) = false := hfalse
    show (if ex (candName b e 0) then Dir.lastNameFuel ex b e 1 1
          else some (candName b e 0)) = some (seqCand b e 0)
    simp only [h0, Bool.false_eq_true, if_false]
    rfl
  | succ q =>
    have h0 : ex (candName b e 0) = true := hall 0 (by omega)
    have h1 : ex (candName b e 1) = true := hall 0 (by omega)
    have hfuel : q + 1 + 2 = (q + 2) + 1 := by omega
    rw [hfuel, Dir.lastNameFuel]
    simp only [h0, if_true]
    rw [(rfl : q + 2 = (q + 1) + 1), Dir.lastNameFuel]
    simp only [h1, if_true]
    have hall2 : ∀ j, j < q → ex (candName b e (2 + j)) = true := by
      intro j hj
      have harg : 2 + j = j + 2 := by omega
      rw [harg, candName_add_two]
      exact hall (j + 1) (by omega)
    have hfalse2 : ex (candName b e (2 + q)) = false := by
      have harg : 2 + q = q + 2 := by omega
      rw [harg, candName_add_two]
      exact hfalse
    have := lastName_loopFrom ex b e q 2 hall2 hfalse2
    rw [this]
    have harg : 2 + q = q + 2 := by omega
    rw [harg, candName_add_two]

/-- Claim C2: `lastName(baseName, extension)` tries the candidate sequence
`-copy`, `-copy-2`, `-copy-3`, ... (loop counter 1 re-tests `-copy`, so no
`-copy-1` exists) and returns the first candidate whose existence test is
false: when the first `k` candidates exist and candidate `k` does not, it
returns candidate `k` (fuel `k + 2` covers the duplicated test). -/
theorem dir_lastName_first_free (ex : String → Bool) (b e : String) (k : Nat)
    (hall : ∀ j ∈ List.range k, ex (seqCand b e j) = true)
    (hfree : ex (seqCand b e k) = false) :
    Dir.lastNameFuel ex b e (k + 2) 0 = some (seqCand b e k) :=
  lastName_finds ex b e k (fun j hj => hall j (List.mem_range.mpr hj)) hfree

/-- Witness for C2: with no candidate existing, `lastName("a", ".txt")`
returns `a-copy.txt`; with exactly `a-copy.txt` existing it returns
`a-copy-2.txt` — index 2, never index 1. -/
theorem dir_lastName_first_free_witness :
    Dir.lastNameFuel (fun _ => false) "a" ".txt" 2 0 = some "a-copy.txt" ∧
    Dir.lastNameFuel (fun s => s == "a-copy.txt") "a" ".txt" 3 0
      = some "a-copy-2.txt" :=
  ⟨dir_lastName_first_free (fun _ => false) "a" ".txt" 0 (by decide) (by decide),
   dir_lastName_first_free (fun s => s == "a-copy.txt") "a" ".txt" 1
     (by decide) (by decide)⟩

/-- Claim C8: the `lastName` loop terminates exactly when some candidate of
its sequence does not exist: when every candidate exists the loop runs out
of any amount of fuel (it has no upper bound), and when the first free
candidate is number `k` the loop returns it. -/
theorem dir_lastName_terminates_iff (ex : String → Bool) (b e : String) :
    ((∀ k, ex (seqCand b e k) = true) →
      ∀ fuel count, Dir.lastNameFuel ex b e fuel count = none) ∧
    (∀ k, (∀ j ∈ List.range k, ex (seqCand b e j) = true) →
      ex (seqCand b e k) = false →
      Dir.lastNameFuel ex b e (k + 2) 0 = some (seqCand b e k)) := by
  constructor
  · intro hall fuel
    induction fuel with
    | zero => intro count; rfl
    | succ n ih =>
      intro count
      have hc : ex (candName b e count) = true := by
        match count with
        | 0 => exact hall 0
        | 1 => exact hall 0
        | (c + 2) => rw [candName_add_two]; exact hall (c + 1)
      simp [Dir.lastNameFuel, hc, ih]
  · intro k hall hfree
    exact lastName_finds ex b e k (fun j hj => hall j (List.mem_range.mpr hj)) hfree

/-- Witness for C8: with every candidate existing the loop yields nothing at
fuel 5 (and any other fuel); with no candidate existing it returns the
first candidate. -/
theorem dir_lastName_terminates_iff_witness :
    Dir.lastNameFuel (fun _ => true) "b" "" 5 0 = none ∧
    Dir.lastNameFuel (fun _ => false) "b" "" 2 0 = some (seqCand "b" "" 0) :=
  ⟨(dir_lastName_terminates_iff (fun _ => true) "b" "").1 (fun _ => rfl) 5 0,
   (dir_lastName_terminates_iff (fun _ => false) "b" "").2 0 (by decide) rfl⟩

theorem noRegexMeta_no_dot (s : String) (h : noRegexMeta s = true) :
    '.' ∉ s.data := by
  intro hmem
  unfold noRegexMeta at h
  rw [List.all_eq_true] at h
  have hthis := h '.' hmem
  have hc : regexSpecials.contains '.' = true := by decide
  rw [hc] at hthis
  simp at hthis

theorem matchesDotAt_eq_isPrefixOf (pat : List Char) (hd : '.' ∉ pat) :
    ∀ s, matchesDotAt pat s = List.isPrefixOf pat s := by
  induction pat with
  | nil => intro s; cases s <;> rfl
  | cons p ps ih =>
    have hp : p ≠ '.' := fun h => hd (h ▸ List.mem_cons_self p ps)
    have hd2 : '.' ∉ ps := fun h => hd (List.mem_cons_of_mem p h)
    intro s
    cases s with
    | nil => rfl
    | cons c cs =>
      show (((p == '.' && !(isLineTerminator c)) || p == c) && matchesDotAt ps cs)
        = ((p == c) && List.isPrefixOf ps cs)
      have hpd : (p == '.') = false := beq_eq_false_iff_ne.mpr hp
      rw [hpd, Bool.false_and, Bool.false_or, ih hd2 cs]

theorem expandRepl_no_dollar (matched before after : List Char) :
    ∀ repl, '$' ∉ repl → expandRepl matched before after repl = repl := by
  intro repl
  induction repl with
  | nil => intro _; rfl
  | cons c rest ih =>
    intro h
    have hc : c ≠ '$' := fun hh => h (hh ▸ List.mem_cons_self c rest)
    have hrest : '$' ∉ rest := fun hh => h (List.mem_cons_of_mem c hh)
    cases rest with
    | nil => rfl
    | cons d rest2 =>
      show (if c == '$' then
              (if d == '$' then '$' :: expandRepl matched before after rest2
               else if d == '&' then matched ++ expandRepl matched before after rest2
               else if d == Char.ofNat 96 then before ++ expandRepl matched before after rest2
               else if d == Char.ofNat 39 then after ++ expandRepl matched before after rest2
               else c :: expandRepl matched before after (d :: rest2))
            else c :: expandRepl matched before after (d :: rest2))
        = c :: d :: rest2
      have hb : (c == '$') = false := beq_eq_false_iff_ne.mpr hc
      rw [hb]
      simp only [Bool.false_eq_true, if_false]
      rw [ih hrest]

theorem jsRepAux_eq_litRepAux (pat repl : List Char) (hd : '.' ∉ pat)
    (hdollar : '$' ∉ repl) :
    ∀ fuel seen s, jsRepAux pat repl fuel seen s = litRepAux pat repl fuel s := by
  intro fuel
  induction fuel with
  | zero => intro seen s; cases s <;> rfl
  | succ n ih =>
    intro seen s
    cases s with
    | nil => rfl
    | cons c cs =>
      show (if matchesDotAt pat (c :: cs) then
              expandRepl (List.take pat.length (c :: cs)) seen
                  (List.drop pat.length (c :: cs)) repl
                ++ jsRepAux pat repl n (seen ++ List.take pat.length (c :: cs))
                  (List.drop pat.length (c :: cs))
            else c :: jsRepAux pat repl n (seen ++ [c]) cs)
        = (if List.isPrefixOf pat (c :: cs) then
              repl ++ litRepAux pat repl n (List.drop pat.length (c :: cs))
            else c :: litRepAux pat repl n cs)
      rw [matchesDotAt_eq_isPrefixOf pat hd (c :: cs)]
      split
      · rw [expandRepl_no_dollar _ _ _ repl hdollar, ih]
      · rw [ih]

theorem jsRepAux_id_of_not_occurs (pat repl : List Char) (hd : '.' ∉ pat) :
    ∀ fuel seen s, occursIn pat s = false → jsRepAux pat repl fuel seen s = s := by
  intro fuel
  induction fuel with
  | zero => intro seen s _; cases s <;> rfl
  | succ n ih =>
    intro seen s hocc
    cases s with
    | nil => rfl
    | cons c cs =>
      have h1 : List.isPrefixOf pat (c :: cs) = false := by
        cases hx : List.isPrefixOf pat (c :: cs) with
        | false => rfl
        | true =>
          unfold occursIn at hocc
          rw [hx] at hocc
          simp at hocc
      have h2 : occursIn pat cs = false := by
        unfold occursIn at hocc
        rw [h1] at hocc
        simpa using hocc
      show (if matchesDotAt pat (c :: cs) then
              expandRepl (List.take pat.length (c :: cs)) seen
                  (List.drop pat.length (c :: cs)) repl
                ++ jsRepAux pat repl n (seen ++ List.take pat.length (c :: cs))
                  (List.drop pat.length (c :: cs))
            else c :: jsRepAux pat repl n (seen ++ [c]) cs) = c :: cs
      rw [matchesDotAt_eq_isPrefixOf pat hd (c :: cs), h1]
      simp only [Bool.false_eq_true, if_false]
      rw [ih (seen ++ [c]) cs h2]

theorem jsRepAux_rebase (pat repl rest : List Char) (hd : '.' ∉ pat)
    (hne : pat ≠ []) (hocc : occursIn pat rest = false) (hdollar : '$' ∉ repl) :
    ∀ seen, jsRepAux pat repl (pat.length + rest.length) seen (pat ++ rest)
      = repl ++ rest := by
  intro seen
  cases pat with
  | nil => exact absurd rfl hne
  | cons p ps =>
    have hlen : (p :: ps).length + rest.length = (ps.length + rest.length) + 1 := by
      simp [List.length_cons]
      omega
    rw [hlen]
    show (if matchesDotAt (p :: ps) (p :: (ps ++ rest)) then
            expandRepl (List.take (p :: ps).length (p :: (ps ++ rest))) seen
                (List.drop (p :: ps).length (p :: (ps ++ rest))) repl
              ++ jsRepAux (p :: ps) repl (ps.length + rest.length)
                (seen ++ List.take (p :: ps).length (p :: (ps ++ rest)))
                (List.drop (p :: ps).length (p :: (ps ++ rest)))
          else p :: jsRepAux (p :: ps) repl (ps.length + rest.length)
            (seen ++ [p]) (ps ++ rest))
      = repl ++ rest
    have hm : matchesDotAt (p :: ps) (p :: (ps ++ rest)) = true := by
      rw [matchesDotAt_eq_isPrefixOf _ hd]
      exact List.isPrefixOf_iff_prefix.mpr (List.prefix_append (p :: ps) rest)
    rw [hm]
    simp only [if_true]
    have hdrop : List.drop (p :: ps).length (p :: (ps ++ rest)) = rest := by
      rw [List.length_cons, List.drop_succ_cons]
      exact List.drop_left ps rest
    rw [hdrop, expandRepl_no_dollar _ _ _ repl hdollar,
      jsRepAux_id_of_not_occurs (p :: ps) repl hd _ _ rest hocc]

/-- Claim C1 (amended): the destination `Dir.copy` computes for an entry is
the entry's path with every match of the source path INTERPRETED AS A
REGULAR EXPRESSION (global flag) replaced by the destination path, the
latter run through the dollar substitution JS applies to string
replacements.  Only when the source path contains no regex metacharacter
and the destination path contains no dollar does this agree with the
literal global substring replacement the claim describes, and only when
the source-path pattern additionally matches nowhere in `/child` does it
agree with the structural rebase `dest/child`. -/
theorem dir_copyDest_regex_not_literal (ofP toP item s : String)
    (hne : ofP.data ≠ []) (hmeta : noRegexMeta ofP = true)
    (hocc : occursIn ofP.data ('/' :: item.data) = false)
    (hdollar : '$' ∉ toP.data) :
    copyDest ofP toP (ofP ++ "/" ++ item) = toP ++ "/" ++ item ∧
    copyDest ofP toP s = litReplaceAll ofP toP s := by
  have hd : '.' ∉ ofP.data := noRegexMeta_no_dot ofP hmeta
  constructor
  · have hdata : (ofP ++ "/" ++ item).data = ofP.data ++ ('/' :: item.data) := by
      rw [String.data_append, String.data_append, List.append_assoc]
      rfl
    have hdata2 : (toP ++ "/" ++ item).data = toP.data ++ ('/' :: item.data) := by
      rw [String.data_append, String.data_append, List.append_assoc]
      rfl
    unfold copyDest jsReplaceAll
    rw [hdata]
    have hlen : (ofP.data ++ ('/' :: item.data)).length
        = ofP.data.length + ('/' :: item.data).length := List.length_append _ _
    rw [hlen,
      jsRepAux_rebase ofP.data toP.data ('/' :: item.data) hd hne hocc hdollar []]
    show String.mk (toP.data ++ ('/' :: item.data)) = toP ++ "/" ++ item
    rw [← hdata2]
  · unfold copyDest jsReplaceAll litReplaceAll
    rw [jsRepAux_eq_litRepAux ofP.data toP.data hd hdollar]

/-- Witness for C1 (amended): a metacharacter-free source path that does not
recur in the child path, with a dollar-free destination path, is rebased
structurally and agrees with the literal replacement. -/
theorem dir_copyDest_regex_not_literal_witness :
    copyDest "src" "dst" ("src" ++ "/" ++ "f.txt") = "dst" ++ "/" ++ "f.txt" ∧
    copyDest "src" "dst" "src/f.txt" = litReplaceAll "src" "dst" "src/f.txt" :=
  dir_copyDest_regex_not_literal "src" "dst" "f.txt" "src/f.txt"
    (by decide) (by decide) (by decide) (by decide)

/-- Counterexample to claim C1 as stated: with source path `a.b` (whose `.`
is a regex wildcard) holding the file `a.b/axb`, the destination computed
for that entry is `to/to` — the pattern also matched `axb` — and not the
literal-replacement result `to/axb`; running `Dir.copy` indeed creates
`to/to` and no `to/axb`.  A destination path is not literal text either:
a dollar-ampersand in it is replaced by the matched text. -/
theorem dir_copy_regex_counterexample :
    copyDest "a.b" "to" "a.b/axb" = "to/to" ∧
    litReplaceAll "a.b" "to" "a.b/axb" = "to/axb" ∧
    copyDest "src" "d$&" "src/f.txt" = "dsrc/f.txt" ∧
    litReplaceAll "src" "d$&" "src/f.txt" = "d$&/f.txt" ∧
    Dir.copyFuel 2 ⟨[("a.b", Node.dir), ("a.b/axb", Node.file "hi")], []⟩
        "a.b" "to"
      = some (⟨[("to/to", Node.file "hi"), ("to", Node.dir),
          ("a.b", Node.dir), ("a.b/axb", Node.file "hi")], []⟩, true) ∧
    Dir.existsb ⟨[("to/to", Node.file "hi"), ("to", Node.dir),
        ("a.b", Node.dir), ("a.b/axb", Node.file "hi")], []⟩ "to/axb" = false := by
  decide

theorem lookup_eraseP_ne (q p : String) (hqp : q ≠ p) :
    ∀ l : List (String × Node),
      List.lookup q (l.eraseP (fun e => e.1 == p)) = List.lookup q l := by
  intro l
  induction l with
  | nil => rfl
  | cons head tail ih =>
    obtain ⟨k, v⟩ := head
    rw [List.eraseP_cons]
    cases hk : ((k, v).1 == p) with
    | true =>
      simp only [cond_true]
      have hkp : k = p := by simpa using hk
      have hqk : (q == k) = false := beq_eq_false_iff_ne.mpr (hkp ▸ hqp)
      rw [List.lookup_cons, hqk]
    | false =>
      simp only [cond_false]
      rw [List.lookup_cons, List.lookup_cons]
      cases hqk : (q == k) with
      | true => rfl
      | false => exact ih

theorem FS_lookup_insert_self (fs : FS) (p : String) (n : Node) :
    (fs.insert p n).lookup p = some n := by
  unfold FS.insert FS.lookup
  rw [List.lookup_cons]
  simp

theorem FS_lookup_insert_ne (fs : FS) (p q : String) (n : Node) (hqp : q ≠ p) :
    (fs.insert p n).lookup q = fs.lookup q := by
  unfold FS.insert FS.lookup
  rw [List.lookup_cons]
  have hqk : (q == p) = false := beq_eq_false_iff_ne.mpr hqp
  rw [hqk]
  exact lookup_eraseP_ne q p hqp fs.entries

theorem append_singleton_not_prefix (l : List Char) (c : Char) :
    (l ++ [c]).isPrefixOf l = false := by
  cases hx : (l ++ [c]).isPrefixOf l with
  | false => rfl
  | true =>
    have hle := (List.isPrefixOf_iff_prefix.mp hx).length_le
    simp at hle

theorem childNameOf_self_none (p : String) : childNameOf p p = none := by
  simp [childNameOf, append_singleton_not_prefix p.data '/']

theorem filterMap_childNameOf_nil (p : String) :
    ∀ l : List (String × Node),
      l.all (fun e => !((p.data ++ ['/']).isPrefixOf e.1.data)) = true →
      l.filterMap (fun e => childNameOf p e.1) = [] := by
  intro l
  induction l with
  | nil => intro _; rfl
  | cons head tail ih =>
    intro h
    rw [List.all_cons] at h
    have hhead : ((p.data ++ ['/']).isPrefixOf head.1.data) = false := by
      have h1 := (Bool.and_eq_true _ _).mp h
      simpa using h1.1
    have htail := (Bool.and_eq_true _ _).mp h
    have hchild : childNameOf p head.1 = none := by
      simp [childNameOf, hhead]
    rw [List.filterMap_cons, hchild]
    exact ih htail.2

theorem all_eraseP_pred (q : (String × Node) → Bool) (f : (String × Node) → Bool) :
    ∀ l : List (String × Node), l.all q = true → (l.eraseP f).all q = true := by
  intro l h
  rw [List.all_eq_true] at h ⊢
  intro x hx
  exact h x ((List.eraseP_sublist l).subset hx)

/-- Claim C10 (amended): when the source path does not exist or its listing
fails (it is not an existing directory), and the destination does not yet
exist but CAN be created (its parent directory exists — without that
proviso `Dir.copy` still returns true but creates nothing, see the
counterexample), `Dir.copy` creates the destination as an empty directory
and reports success `true` even though nothing was copied. -/
theorem dir_copy_missing_source_creates_dest (fuel : Nat) (fs : FS)
    (ofPath toPath : String)
    (hof : osReaddir fs ofPath = none) (hto : fs.lookup toPath = none)
    (hpar : fs.parentOk toPath = true) (htne : ¬ toPath = "")
    (hne : ¬ ofPath = toPath)
    (hkids : fs.entries.all
      (fun e => !((toPath.data ++ ['/']).isPrefixOf e.1.data)) = true) :
    Dir.copyFuel (fuel + 1) fs ofPath toPath
      = some (fs.insert toPath Node.dir, true) ∧
    Dir.existsb (fs.insert toPath Node.dir) toPath = true ∧
    (fs.insert toPath Node.dir).lookup toPath = some Node.dir ∧
    osReaddir (fs.insert toPath Node.dir) toPath = some [] := by
  have hbeq : (toPath == "") = false := beq_eq_false_iff_ne.mpr htne
  have hprep : copyPrep fs toPath = fs.insert toPath Node.dir := by
    unfold copyPrep Dir.existsb osAccess Dir.create osMkdir
    rw [hto, hpar]
    simp
  have hlk : (fs.insert toPath Node.dir).lookup ofPath = fs.lookup ofPath :=
    FS_lookup_insert_ne fs toPath ofPath Node.dir hne
  have hread1 : osReaddir (fs.insert toPath Node.dir) ofPath = none := by
    unfold osReaddir at hof ⊢
    rw [hlk]
    cases hl : fs.lookup ofPath with
    | none => rfl
    | some n =>
      cases n with
      | file c => rfl
      | dir =>
        rw [hl] at hof
        simp at hof
  have hlist : Dir.list (fs.insert toPath Node.dir) ofPath = [] := by
    unfold Dir.list
    rw [hread1]
  have hread : osReaddir (fs.insert toPath Node.dir) toPath = some [] := by
    unfold osReaddir
    rw [FS_lookup_insert_self]
    have hent : (fs.insert toPath Node.dir).entries
        = (toPath, Node.dir) :: fs.entries.eraseP (fun e => e.1 == toPath) := rfl
    rw [hent, List.filterMap_cons, childNameOf_self_none,
      filterMap_childNameOf_nil toPath _
        (all_eraseP_pred _ _ fs.entries hkids)]
  refine ⟨?_, ?_, FS_lookup_insert_self fs toPath Node.dir, hread⟩
  · rw [Dir.copyFuel]
    unfold copyStep
    simp only [hbeq, Bool.false_eq_true, if_false]
    rw [hprep, hlist]
    rfl
  · unfold Dir.existsb osAccess
    rw [FS_lookup_insert_self]
    rfl

/-- Witness for C10 (amended): copying a missing source `s`, and likewise a
source `s` that exists as a regular file (so its listing fails), to a
creatable missing destination `d` creates `d` as an empty directory and
returns true. -/
theorem dir_copy_missing_source_creates_dest_witness :
    (Dir.copyFuel 1 ⟨[("junk", Node.file "z")], []⟩ "s" "d"
      = some (FS.insert ⟨[("junk", Node.file "z")], []⟩ "d" Node.dir, true) ∧
     Dir.existsb (FS.insert ⟨[("junk", Node.file "z")], []⟩ "d" Node.dir) "d"
      = true ∧
     (FS.insert ⟨[("junk", Node.file "z")], []⟩ "d" Node.dir).lookup "d"
      = some Node.dir ∧
     osReaddir (FS.insert ⟨[("junk", Node.file "z")], []⟩ "d" Node.dir) "d"
      = some []) ∧
    (Dir.copyFuel 1 ⟨[("s", Node.file "z")], []⟩ "s" "d"
      = some (FS.insert ⟨[("s", Node.file "z")], []⟩ "d" Node.dir, true) ∧
     Dir.existsb (FS.insert ⟨[("s", Node.file "z")], []⟩ "d" Node.dir) "d"
      = true ∧
     (FS.insert ⟨[("s", Node.file "z")], []⟩ "d" Node.dir).lookup "d"
      = some Node.dir ∧
     osReaddir (FS.insert ⟨[("s", Node.file "z")], []⟩ "d" Node.dir) "d"
      = some []) :=
  ⟨dir_copy_missing_source_creates_dest 0 ⟨[("junk", Node.file "z")], []⟩ "s" "d"
    (by decide) (by decide) (by decide) (by decide) (by decide) (by decide),
   dir_copy_missing_source_creates_dest 0 ⟨[("s", Node.file "z")], []⟩ "s" "d"
    (by decide) (by decide) (by decide) (by decide) (by decide) (by decide)⟩
